import Mathlib

/-!
Verification development for the videotools backend
(src/backend/main.py, src/backend/services/video_processor.py,
src/backend/services/video_grouper.py).

The Python code is shallowly embedded: times are rationals, external
processes (ffmpeg, the vision model) are oracle parameters, and fallible
code returns `Except`/`Option`.
-/

namespace Videotools

/-- A scene record: the `Scene` pydantic model of src/backend/main.py
(`start`, `end`, `scene_number`) together with the optional `group_id`
key that `VideoGrouper.group_scenes` may add to a scene dictionary.
`end` is a Lean keyword, so the field is called `stop`. -/
structure Scene where
  start : ℚ
  stop : ℚ
  sceneNumber : ℕ
  groupId : Option ℕ := none
deriving Repr, DecidableEq, Inhabited

/-! ## VideoProcessor.split_video (video_processor.py lines 126-189) -/

/-- `frame_duration` computation of `split_video` (lines 141-146):
`1.0 / fps if fps > 0 else 0.033`, with `0.033` also used when opening
the video raises (the bare `except`), modelled by the `none` case. -/
def frameDuration : Option ℚ → ℚ
  | some fps => if 0 < fps then 1 / fps else 33 / 1000
  | none => 33 / 1000

/-- The adjusted seek offset of `split_video` (lines 164-166): the raw
start for the first scene, `start + frame_duration * 0.5` afterwards. -/
def adjStart (fd : ℚ) (i : ℕ) (start : ℚ) : ℚ :=
  if i = 0 then start else start + fd * (1 / 2)

/-- Zero-padding to three digits, as in the `f"...{i+1:03d}..."` output
file name of `split_video` (line 153). -/
def pad3 (n : ℕ) : String :=
  if n < 10 then "00" ++ toString n
  else if n < 100 then "0" ++ toString n
  else toString n

/-- Output file name for 0-based scene index `i` (line 153); the
extension is forced to `.mp4` (line 150). -/
def sceneFileName (name : String) (i : ℕ) : String :=
  name ++ "_scene_" ++ pad3 (i + 1) ++ ".mp4"

/-- The arguments of one ffmpeg transcode invocation that depend on the
scene (lines 168-180): the `-ss` seek offset, the `-t` duration and the
output path.  The source formats `-ss` with three decimals for the
command line; the model keeps the exact value. -/
structure FfmpegCmd where
  ss : ℚ
  t : ℚ
  outFile : String
deriving Repr, DecidableEq, Inhabited

/-- The ffmpeg command list built by the `for i, (start, end) in
enumerate(scenes)` loop of `split_video` (lines 152-180). -/
def splitVideoCmds (fpsInfo : Option ℚ) (name : String)
    (scenes : List (ℚ × ℚ)) : List FfmpegCmd :=
  let fd := frameDuration fpsInfo
  scenes.enum.map fun p =>
    { ss := adjStart fd p.1 p.2.1
      t := p.2.2 - p.2.1
      outFile := sceneFileName name p.1 }

/-- `VideoProcessor.split_video`: runs one transcode per scene via
`subprocess.run` (line 182) and collects `created_files`.  The exit
status returned by `runTranscode` is never inspected by the source
(no `check=True`, no `returncode` test), so the function returns
`created_files` unconditionally. -/
def splitVideo (runTranscode : FfmpegCmd → Int) (fpsInfo : Option ℚ)
    (name : String) (scenes : List (ℚ × ℚ)) : Except String (List String) :=
  let cmds := splitVideoCmds fpsInfo name scenes
  let _exitCodes := cmds.map runTranscode
  .ok (cmds.map (·.outFile))

/-! ## VideoProcessor.generate_thumbnail (video_processor.py lines 191-223) -/

/-- `VideoProcessor.generate_thumbnail`: `pathExists` models the
`os.path.exists` test, `runExtract` the ffmpeg pipe invocation at the
given timestamp, returning `(returncode, captured stdout bytes)`.  The
source raises only on a missing file or a non-zero `returncode`; the
captured bytes are returned as they are, empty or not. -/
def generateThumbnail (pathExists : Bool) (runExtract : ℚ → Int × List ℕ)
    (time : ℚ) : Except String (List ℕ) :=
  if !pathExists then .error "Video file not found"
  else
    let adjTime := time + 1 / 10
    let r := runExtract adjTime
    if r.1 ≠ 0 then .error "FFmpeg failed to generate thumbnail"
    else .ok r.2

/-! ## Event streams of the main.py event generators (lines 62-141, 152-204) -/

/-- One progress payload as posted by `detect_scenes`'s callback
(`callback(progress, fps, eta, num_scenes_so_far)`). -/
structure ProgEvent where
  percent : ℕ
  fps : ℚ
  eta : ℚ
  scenes : ℕ
deriving Repr, DecidableEq, Inhabited

/-- One newline-delimited record yielded by an event generator:
`{"type": "progress", ...}`, `{"type": "complete", ...}` or
`{"type": "error", ...}`. -/
inductive StreamEvent (R : Type) where
  | progress (p : ProgEvent)
  | complete (r : R)
  | error (msg : String)
deriving Repr, DecidableEq, Inhabited

/-- Terminal records are the complete/error records. -/
def StreamEvent.isTerminal {R : Type} : StreamEvent R → Bool
  | .progress _ => false
  | .complete _ => true
  | .error _ => true

/-- The FIFO queue contents produced by a worker (`run_detection` /
`run_split`): the progress items posted by the callback, then the `None`
sentinel posted by the worker's `finally` block. -/
def workerQueue (progress : List ProgEvent) : List (Option ProgEvent) :=
  progress.map some ++ [none]

/-- The relay loop of both event generators (main.py lines 102-113 and
181-190): `q.get` items in order, stop at the `None` sentinel, yield one
progress record per item. -/
def drainQueue {R : Type} : List (Option ProgEvent) → List (StreamEvent R)
  | [] => []
  | none :: _ => []
  | some p :: rest => .progress p :: drainQueue rest

/-- The terminal record of `analyze_video.event_generator` (lines
118-136): an error record if the worker stored an error, a complete
record if it stored data, and a synthesized error record if the worker
terminated without storing either. -/
def analyzeTerminal {R : Type} : Option (Except String R) → StreamEvent R
  | some (.error m) => .error m
  | some (.ok d) => .complete d
  | none => .error "Internal Error: No data produced."

/-- The terminal record of `split_video.event_generator` (lines
194-201): like `analyzeTerminal`, except that a missing result raises a
`KeyError` on `result_container['data']`, caught by the generator's
outer `except` and yielded as an error record. -/
def splitTerminal {R : Type} : Option (Except String R) → StreamEvent R
  | some (.error m) => .error m
  | some (.ok d) => .complete d
  | none => .error "'data'"

/-- Full event stream of `analyze_video.event_generator`: the drained
progress records followed by the single terminal record. -/
def analyzeStream {R : Type} (progress : List ProgEvent)
    (container : Option (Except String R)) : List (StreamEvent R) :=
  drainQueue (workerQueue progress) ++ [analyzeTerminal container]

/-- Full event stream of `split_video.event_generator`. -/
def splitStream {R : Type} (progress : List ProgEvent)
    (container : Option (Except String R)) : List (StreamEvent R) :=
  drainQueue (workerQueue progress) ++ [splitTerminal container]

/-! ## Progress telemetry of VideoProcessor.detect_scenes (lines 74-103) -/

/-- The progress payload computed every 30 frames (lines 74-98).
`elapsed` gives the wall-clock seconds elapsed when `frameNum` frames
have been read, `cutsAt` the size of the detector's `_cutting_list`
then; both are oracle inputs of the model. -/
def detectProgressAt (elapsed : ℕ → ℚ) (cutsAt : ℕ → ℕ)
    (total frameNum : ℕ) : ProgEvent :=
  let el := elapsed frameNum
  let fps : ℚ := if 0 < el then (frameNum : ℚ) / el else 0
  let eta : ℚ := if 0 < fps then ((total : ℚ) - frameNum) / fps else 0
  let nc := cutsAt frameNum
  { percent := min 100 (frameNum * 100 / total)
    fps := fps
    eta := eta
    scenes := if nc = 0 then 0 else nc + 1 }

/-- The periodic progress events of one detection run reading `frames`
frames: emitted at `frame_num = 30, 60, ...` and only when
`total_frames > 0` (the `callback and total_frames > 0 and
frame_num % 30 == 0` guard, line 74). -/
def detectProgressEvents (elapsed : ℕ → ℚ) (cutsAt : ℕ → ℕ)
    (total frames : ℕ) : List ProgEvent :=
  if 0 < total then
    (List.range (frames / 30)).map fun k =>
      detectProgressAt elapsed cutsAt total (30 * (k + 1))
  else []

/-- The unconditional final callback of `detect_scenes` (lines 100-103):
`callback(100, 0.0, 0.0, final_scenes)`. -/
def detectFinalEvent (cutsAt : ℕ → ℕ) (frames : ℕ) : ProgEvent :=
  { percent := 100
    fps := 0
    eta := 0
    scenes := if cutsAt frames = 0 then 0 else cutsAt frames + 1 }

/-- All progress events posted by one `detect_scenes` run, in post
order. -/
def detectEvents (elapsed : ℕ → ℚ) (cutsAt : ℕ → ℕ)
    (total frames : ℕ) : List ProgEvent :=
  detectProgressEvents elapsed cutsAt total frames
    ++ [detectFinalEvent cutsAt frames]

/-! ## VideoGrouper.group_scenes (video_grouper.py lines 75-167) -/

/-- JSON values, covering the fragment of `json.loads` output relevant
to the grouping responses: arrays, integers, booleans, strings and
null.  (Floats and objects are outside the modelled fragment; the
grouping protocol asks the model for lists of lists of integers.) -/
inductive JVal where
  | jint (n : Int)
  | jbool (b : Bool)
  | jstr (s : String)
  | jnull
  | jarr (xs : List JVal)
deriving Inhabited

/-- Skip JSON whitespace. -/
def skipWs : List Char → List Char
  | c :: rest =>
    if c = ' ' ∨ c = '\n' ∨ c = '\t' ∨ c = '\r' then skipWs rest else c :: rest
  | [] => []

/-- Numeric value of a digit run. -/
def digitsToNat (ds : List Char) : ℕ :=
  ds.foldl (fun a c => a * 10 + (c.toNat - 48)) 0

/-- Read a JSON string body up to the closing quote (escape sequences
are outside the modelled fragment). -/
def takeStrBody : List Char → Option (List Char × List Char)
  | [] => none
  | c :: rest =>
    if c = '"' then some ([], rest)
    else if c = '\\' then none
    else match takeStrBody rest with
      | some (s, r) => some (c :: s, r)
      | none => none

/-- Fuel-indexed recursive-descent decoder for the modelled JSON
fragment.  `Sum.inl cs` decodes one value from `cs`; `Sum.inr cs`
decodes the comma-separated items of an array up to and including the
closing bracket.  A single structurally-recursive function (on the
fuel) so that the decoder reduces definitionally. -/
def parseStep : ℕ → List Char ⊕ List Char → Option ((JVal ⊕ List JVal) × List Char)
  | 0, _ => none
  | Nat.succ fuel, Sum.inl cs =>
    match skipWs cs with
    | [] => none
    | c :: rest =>
      if c = '[' then
        match skipWs rest with
        | ']' :: rest2 => some (.inl (.jarr []), rest2)
        | cs2 =>
          match parseStep fuel (.inr cs2) with
          | some (.inr xs, rest2) => some (.inl (.jarr xs), rest2)
          | _ => none
      else if c = '"' then
        match takeStrBody rest with
        | some (s, rest2) => some (.inl (.jstr (String.mk s)), rest2)
        | none => none
      else if c = '-' then
        match (rest.span (·.isDigit)) with
        | ([], _) => none
        | (ds, rest2) =>
          if rest2.head? = some '.' then none
          else some (.inl (.jint (-(digitsToNat ds : Int))), rest2)
      else if c.isDigit then
        match ((c :: rest).span (·.isDigit)) with
        | (ds, rest2) =>
          if rest2.head? = some '.' then none
          else some (.inl (.jint (digitsToNat ds : Int)), rest2)
      else if (c :: rest).take 4 = ['t', 'r', 'u', 'e'] then
        some (.inl (.jbool true), rest.drop 3)
      else if (c :: rest).take 5 = ['f', 'a', 'l', 's', 'e'] then
        some (.inl (.jbool false), rest.drop 4)
      else if (c :: rest).take 4 = ['n', 'u', 'l', 'l'] then
        some (.inl .jnull, rest.drop 3)
      else none
  | Nat.succ fuel, Sum.inr cs =>
    match parseStep fuel (.inl cs) with
    | some (.inl v, cs1) =>
      (match skipWs cs1 with
       | ',' :: rest2 =>
         match parseStep fuel (.inr rest2) with
         | some (.inr vs, cs2) => some (.inr (v :: vs), cs2)
         | _ => none
       | ']' :: rest2 => some (.inr [v], rest2)
       | _ => none)
    | _ => none

/-- `json.loads` on the modelled fragment: decode one value and require
the rest of the input to be whitespace. -/
def jsonParse (s : String) : Option JVal :=
  match parseStep (2 * s.length + 2) (.inl s.data) with
  | some (.inl v, rest) => if skipWs rest = [] then some v else none
  | _ => none

/-- `re.search(r'\[.*\]', content, re.DOTALL)` (line 144): with the
greedy `.*` under DOTALL the match, when it exists, runs from the first
`[` of the text to the last `]` of the text, and it exists exactly when
that first `[` lies strictly before that last `]`. -/
def bracketSpan (content : String) : Option String :=
  let cs := content.data
  match cs.indexOf? '[', cs.reverse.indexOf? ']' with
  | some i, some jr =>
    let j := cs.length - 1 - jr
    if i < j then some (String.mk ((cs.drop i).take (j - i + 1))) else none
  | some _, none => none
  | none, _ => none

/-- The response-parsing step of `group_scenes` (lines 143-148): the
regex span fed to `json.loads`.  `none` covers both a missing regex
match (line 161) and a decode failure (the `json.loads` exception is
caught by the batch's `except` before any scene was modified). -/
def codeParseResponse (content : String) : Option JVal :=
  (bracketSpan content).bind jsonParse

/-- The parse step as the spec words it ("locating the first
well-formed bracketed list substring and decoding it as JSON"): the
earliest substring — by start position, then by end position — that
starts with `[`, ends with `]` and decodes as a JSON list.  Defined
from the spec sentence, for comparison with `codeParseResponse`. -/
def specFirstListSubstring (content : String) : Option JVal :=
  let cs := content.data
  let n := cs.length
  (List.range n).findSome? fun i =>
    if cs.getD i ' ' = '[' then
      (List.range (n - i)).findSome? fun d =>
        let sub := (cs.drop i).take (d + 1)
        if sub.getLast? = some ']' then
          match jsonParse (String.mk sub) with
          | some (.jarr xs) => some (JVal.jarr xs)
          | _ => none
        else none
    else none

/-- `isinstance(local_idx, int)` together with the integer value used
(line 155): Python booleans are instances of `int`, with values 1/0. -/
def toPyInt : JVal → Option Int
  | .jint n => some n
  | .jbool b => some (if b then 1 else 0)
  | _ => none

/-- Python `for x in v`: arrays iterate their elements, strings iterate
their one-character substrings, everything else raises `TypeError`
(modelled as `none`). -/
def pyIter : JVal → Option (List JVal)
  | .jarr xs => some xs
  | .jstr s => some (s.data.map fun c => JVal.jstr (String.mk [c]))
  | _ => none

/-- Write `group_id` into the scene at list position `k`. -/
def setGroupId (scs : List Scene) (k : ℕ) (gid : ℕ) : List Scene :=
  scs.set k { scs.getD k default with groupId := some gid }

/-- Python item assignment `processed_scenes[g]['group_id'] = gid` for a
possibly negative index `g` (known to satisfy `g < len`): non-negative
indices write directly, indices in `[-len, 0)` wrap from the end, and
anything below `-len` raises `IndexError` (`none`). -/
def pySetGroup (scs : List Scene) (g : Int) (gid : ℕ) : Option (List Scene) :=
  if 0 ≤ g then some (setGroupId scs g.toNat gid)
  else if -(scs.length : Int) ≤ g then
    some (setGroupId scs (scs.length - (-g).toNat) gid)
  else none

/-- The body of the inner `for local_idx in group` loop (lines
154-159): non-integers are skipped; for an integer, `global_idx =
batch_start + (local_idx - 1)` is computed and the scene is updated
only under the `global_idx < len(processed_scenes)` guard.  `none` is
the `IndexError` a negative index below `-len` raises. -/
def assignLocal (batchStart : ℕ) (gid : ℕ) (scs : List Scene) (v : JVal) :
    Option (List Scene) :=
  match toPyInt v with
  | none => some scs
  | some ix =>
    let g : Int := (batchStart : Int) + (ix - 1)
    if g < (scs.length : Int) then pySetGroup scs g gid else some scs

/-- The inner loop over one group's entries; on an `IndexError` the
writes already performed are kept and the `Bool` flag records that the
exception aborts the batch. -/
def assignElems (batchStart gid : ℕ) :
    List Scene → List JVal → List Scene × Bool
  | scs, [] => (scs, true)
  | scs, v :: rest =>
    match assignLocal batchStart gid scs v with
    | some scs2 => assignElems batchStart gid scs2 rest
    | none => (scs, false)

/-- The `for group in groups` loop (lines 150-159), threading the
scene list, the global `group_id_offset` counter and the trace of
allocated group ids.  The counter is incremented once per sub-list
before the sub-list is iterated; a `TypeError` (non-iterable group) or
an `IndexError` inside the group is caught by the batch's `except`,
ending the batch's assignments with the state reached so far. -/
def runGroups (batchStart : ℕ) :
    List Scene → ℕ → List ℕ → List JVal → List Scene × ℕ × List ℕ
  | scs, off, tr, [] => (scs, off, tr)
  | scs, off, tr, g :: rest =>
    let off2 := off + 1
    let tr2 := tr ++ [off2]
    match pyIter g with
    | none => (scs, off2, tr2)
    | some xs =>
      match assignElems batchStart off2 scs xs with
      | (scs2, true) => runGroups batchStart scs2 off2 tr2 rest
      | (scs2, false) => (scs2, off2, tr2)

/-- One iteration of the batch loop (lines 90-165).  `thumbOk idx`
tells whether `generate_thumbnail` succeeded for scene `idx` (a failed
thumbnail is caught and skipped, lines 108-110); `responses i` is the
vision-model response text for batch `i`.  A batch with no successful
thumbnail is skipped; `_create_image_grid` on a nonempty list always
returns a path (its empty-string return is only for an empty list), so
the stitch test never skips here. -/
def processBatch (thumbOk : ℕ → Bool) (responses : ℕ → String)
    (st : List Scene × ℕ × List ℕ) (i : ℕ) : List Scene × ℕ × List ℕ :=
  let scs := st.1
  let batchStart := i * 9
  let batchEnd := min ((i + 1) * 9) scs.length
  let thumbs := ((List.range (batchEnd - batchStart)).map (· + batchStart)).filter thumbOk
  if thumbs = [] then st
  else
    match codeParseResponse (responses i) with
    | none => st
    | some groups =>
      match pyIter groups with
      | none => st
      | some gs => runGroups batchStart st.1 st.2.1 st.2.2 gs

/-- `VideoGrouper.group_scenes` over value-level scenes: the batch loop
run over `ceil(len/9)` batches starting from the per-scene copies
(`[s.copy() for s in scenes]`, line 86 — the identity on values), a
zero `group_id_offset` and an empty allocation trace. -/
def groupScenesRun (thumbOk : ℕ → Bool) (responses : ℕ → String)
    (scenes : List Scene) : List Scene × ℕ × List ℕ :=
  if scenes = [] then ([], 0, [])
  else
    let processed := scenes.map fun s => s
    let numBatches := (scenes.length + 8) / 9
    (List.range numBatches).foldl (processBatch thumbOk responses) (processed, 0, [])

/-- The scene list `group_scenes` returns. -/
def groupScenes (thumbOk : ℕ → Bool) (responses : ℕ → String)
    (scenes : List Scene) : List Scene :=
  (groupScenesRun thumbOk responses scenes).1

/-! ## Heap-level model of group_scenes, for its frame effect

Python scene dictionaries are mutable heap cells.  To state what the
call does to the *caller's* objects, the cells live in a heap (a list
of `Scene` records addressed by position) and the caller passes a list
of addresses.  `group_scenes` first evaluates `[s.copy() for s in
scenes]` (line 86), allocating one fresh cell per scene; every
`processed_scenes[...]` write in the batch loop then targets those
fresh cells. -/

/-- Write `group_id` into the heap cell at address `addr`. -/
def hSetGroup (heap : List Scene) (addr : ℕ) (gid : ℕ) : List Scene :=
  heap.set addr { heap.getD addr default with groupId := some gid }

/-- Heap-level `assignLocal`: positions index into `newAddrs`, the
addresses of the copied cells; the guarded/wrapping/IndexError index
arithmetic is exactly that of `assignLocal`. -/
def hAssignLocal (newAddrs : List ℕ) (batchStart gid : ℕ)
    (heap : List Scene) (v : JVal) : Option (List Scene) :=
  match toPyInt v with
  | none => some heap
  | some ix =>
    let g : Int := (batchStart : Int) + (ix - 1)
    if g < (newAddrs.length : Int) then
      if 0 ≤ g then some (hSetGroup heap (newAddrs.getD g.toNat 0) gid)
      else if -(newAddrs.length : Int) ≤ g then
        some (hSetGroup heap (newAddrs.getD (newAddrs.length - (-g).toNat) 0) gid)
      else none
    else some heap

/-- Heap-level inner loop over one group's entries. -/
def hAssignElems (newAddrs : List ℕ) (batchStart gid : ℕ) :
    List Scene → List JVal → List Scene × Bool
  | heap, [] => (heap, true)
  | heap, v :: rest =>
    match hAssignLocal newAddrs batchStart gid heap v with
    | some heap2 => hAssignElems newAddrs batchStart gid heap2 rest
    | none => (heap, false)

/-- Heap-level `for group in groups` loop. -/
def hRunGroups (newAddrs : List ℕ) (batchStart : ℕ) :
    List Scene → ℕ → List JVal → List Scene × ℕ
  | heap, off, [] => (heap, off)
  | heap, off, g :: rest =>
    let off2 := off + 1
    match pyIter g with
    | none => (heap, off2)
    | some xs =>
      match hAssignElems newAddrs batchStart off2 heap xs with
      | (heap2, true) => hRunGroups newAddrs batchStart heap2 off2 rest
      | (heap2, false) => (heap2, off2)

/-- Heap-level batch iteration. -/
def hProcessBatch (thumbOk : ℕ → Bool) (responses : ℕ → String)
    (newAddrs : List ℕ) (st : List Scene × ℕ) (i : ℕ) : List Scene × ℕ :=
  let batchStart := i * 9
  let batchEnd := min ((i + 1) * 9) newAddrs.length
  let thumbs := ((List.range (batchEnd - batchStart)).map (· + batchStart)).filter thumbOk
  if thumbs = [] then st
  else
    match codeParseResponse (responses i) with
    | none => st
    | some groups =>
      match pyIter groups with
      | none => st
      | some gs => hRunGroups newAddrs batchStart st.1 st.2 gs

/-- Heap-level `group_scenes`: append one fresh copy per input address
(`[s.copy() for s in scenes]`), run the batch loop over the copies, and
return the final heap together with the addresses of the returned
list's cells. -/
def groupScenesHeap (thumbOk : ℕ → Bool) (responses : ℕ → String)
    (heap0 : List Scene) (addrs : List ℕ) : List Scene × List ℕ :=
  if addrs = [] then (heap0, [])
  else
    let newAddrs := List.range' heap0.length addrs.length
    let heap1 := heap0 ++ addrs.map fun a => heap0.getD a default
    let numBatches := (addrs.length + 8) / 9
    (((List.range numBatches).foldl
        (hProcessBatch thumbOk responses newAddrs) (heap1, 0)).1,
      newAddrs)

/-! ## Scene assembly of one detection run -/

/-- Modelled from the spec: the conversion of the accumulated cut list
into scene intervals.  In the source this step happens inside the
external `scenedetect` library (`SceneManager._post_process` and
`get_scene_list`, invoked at video_processor.py lines 114-116), whose
code is not part of src/; spec section 4.1 words it as "close the cut
list by appending an implicit boundary at end-of-stream, then convert
adjacent boundary pairs into `Scene` entries numbered from 1", and
main.py lines 129-130 attach `scene_number = i + 1` in list order. -/
def scenesFromCuts (duration : ℚ) (cuts : List ℚ) : List Scene :=
  let bs := 0 :: (cuts ++ [duration])
  (List.range (bs.length - 1)).map fun i =>
    { start := bs.getD i 0
      stop := bs.getD (i + 1) 0
      sceneNumber := i + 1
      groupId := none }

/-! ## Concrete inputs used by counterexamples and witnesses -/

/-- A scene covering `[k, k+1]` with 1-based number `k+1`. -/
def mkScene (k : ℕ) : Scene :=
  { start := (k : ℚ), stop := (k : ℚ) + 1, sceneNumber := k + 1, groupId := none }

/-- Ten scenes: two grouping batches (indices 0-8 and index 9). -/
def tenScenes : List Scene := (List.range 10).map mkScene

/-- Batch 0 answers `[[10]]` (local index 10, beyond its 9 scenes);
batch 1 answers unparsable text. -/
def crossBatchResponses : ℕ → String :=
  fun i => if i = 0 then "[[10]]" else "x"

end Videotools

namespace Videotools

/-! # Theorems -/

/-- `frameDuration` is always positive. -/
theorem frameDuration_pos (fpsInfo : Option ℚ) : 0 < frameDuration fpsInfo := by
  cases fpsInfo with
  | none => norm_num [frameDuration]
  | some fps =>
    by_cases h : 0 < fps <;> simp [frameDuration, h]

theorem splitVideoCmds_length (fpsInfo : Option ℚ) (name : String)
    (scenes : List (ℚ × ℚ)) :
    (splitVideoCmds fpsInfo name scenes).length = scenes.length := by
  simp [splitVideoCmds]

theorem splitVideoCmds_getD (fpsInfo : Option ℚ) (name : String)
    (scenes : List (ℚ × ℚ)) (i : ℕ) (h : i < scenes.length) :
    (splitVideoCmds fpsInfo name scenes).getD i default =
      { ss := adjStart (frameDuration fpsInfo) i (scenes.getD i default).1
        t := (scenes.getD i default).2 - (scenes.getD i default).1
        outFile := sceneFileName name i } := by
  have hlen : i < (splitVideoCmds fpsInfo name scenes).length := by
    rwa [splitVideoCmds_length]
  rw [List.getD_eq_getElem _ _ hlen, List.getD_eq_getElem _ _ h]
  simp [splitVideoCmds]

/-- C5 (confirmed): the transcoder seek offset for 0-based scene `i` is
the raw start when `i = 0` and `start + 0.5 * frame_duration` when
`i > 0` (strictly past the raw start), with `frame_duration = 1/fps`
when `fps > 0` and `0.033` when fps is unavailable; the `-t` duration
is `end - start`, not recomputed from the shifted start. -/
theorem split_seek_offsets (fpsInfo : Option ℚ) (name : String)
    (scenes : List (ℚ × ℚ)) (i : ℕ) (h : i < scenes.length) :
    ((splitVideoCmds fpsInfo name scenes).getD i default).t
        = (scenes.getD i default).2 - (scenes.getD i default).1 ∧
      (i = 0 → ((splitVideoCmds fpsInfo name scenes).getD i default).ss
        = (scenes.getD i default).1) ∧
      (i ≠ 0 → ((splitVideoCmds fpsInfo name scenes).getD i default).ss
          = (scenes.getD i default).1 + frameDuration fpsInfo * (1 / 2) ∧
        (scenes.getD i default).1
          < ((splitVideoCmds fpsInfo name scenes).getD i default).ss) ∧
      frameDuration none = 33 / 1000 ∧
      (∀ fps : ℚ, 0 < fps → frameDuration (some fps) = 1 / fps) := by
  rw [splitVideoCmds_getD fpsInfo name scenes i h]
  refine ⟨rfl, ?_, ?_, rfl, ?_⟩
  · intro hi; simp [adjStart, hi]
  · intro hi
    constructor
    · simp [adjStart, hi]
    · simp only [adjStart, hi, if_false]
      have := frameDuration_pos fpsInfo
      nlinarith
  · intro fps hfps; simp [frameDuration, hfps]

/-- C5 witness: two scenes at 25 fps; the second command seeks to
`4 + (1/25)*(1/2) = 201/50` and keeps duration `7 - 4 = 3`. -/
theorem split_seek_offsets_witness :
    (1 : ℕ) < ([((1 : ℚ), (3 : ℚ)), ((4 : ℚ), (7 : ℚ))] : List (ℚ × ℚ)).length ∧
    ((splitVideoCmds (some 25) "v" [(1, 3), (4, 7)]).getD 1 default).t = 3 ∧
    ((splitVideoCmds (some 25) "v" [(1, 3), (4, 7)]).getD 1 default).ss = 4 + 1 / 50 := by
  have h : (1 : ℕ) < ([((1 : ℚ), (3 : ℚ)), ((4 : ℚ), (7 : ℚ))] : List (ℚ × ℚ)).length := by
    decide
  have hs := split_seek_offsets (some 25) "v" [(1, 3), (4, 7)] 1 h
  refine ⟨h, ?_, ?_⟩
  · rw [hs.1]; norm_num [List.getD]
  · rw [(hs.2.2.1 (by decide)).1]
    have h25 : frameDuration (some (25 : ℚ)) = 1 / 25 := hs.2.2.2.2 25 (by norm_num)
    rw [h25]
    norm_num [List.getD]

/-- C1 counterexample: with a transcode oracle that exits `1` (non-zero)
on every invocation, `split_video` still returns a normal result whose
file list covers the segment — it checks no exit status
(`subprocess.run` at line 182 without `check`), so it cannot fail as the
claim states. -/
theorem split_nonzero_exit_cex :
    (∀ c : FfmpegCmd, (fun _ : FfmpegCmd => (1 : Int)) c ≠ 0) ∧
    splitVideo (fun _ : FfmpegCmd => (1 : Int)) (some 30) "video" [(0, 5)]
      = .ok ["video_scene_001.mp4"] := by
  refine ⟨fun c => ?_, rfl⟩
  simp

/-- C1 (corrected): `split_video` never inspects the transcode exit
status; for every exit-code oracle it returns a normal result listing
one output path per input scene. -/
theorem split_returns_all_segments (runTranscode : FfmpegCmd → Int)
    (fpsInfo : Option ℚ) (name : String) (scenes : List (ℚ × ℚ)) :
    splitVideo runTranscode fpsInfo name scenes
        = .ok ((splitVideoCmds fpsInfo name scenes).map (·.outFile)) ∧
      ((splitVideoCmds fpsInfo name scenes).map (·.outFile)).length
        = scenes.length := by
  refine ⟨rfl, ?_⟩
  simp [splitVideoCmds]

/-- C7 counterexample: an extraction process that exits `0` with empty
output makes `generate_thumbnail` return the empty bytes normally — the
source (lines 219-223) raises only on a non-zero `returncode`, never on
empty output. -/
theorem thumbnail_empty_output_cex :
    generateThumbnail true (fun _ => ((0 : Int), ([] : List ℕ))) 5
      = .ok ([] : List ℕ) := rfl

theorem generateThumbnail_true_eq (runExtract : ℚ → Int × List ℕ) (t : ℚ) :
    generateThumbnail true runExtract t =
      (if (runExtract (t + 1 / 10)).1 ≠ 0
       then .error "FFmpeg failed to generate thumbnail"
       else .ok (runExtract (t + 1 / 10)).2) := rfl

/-- C7 (corrected): `generate_thumbnail` either fails (missing file, or
extraction exit status non-zero) or returns the captured output bytes;
with a zero exit status the bytes are returned even when empty, so
empty output is not a failure. -/
theorem thumbnail_error_characterization (runExtract : ℚ → Int × List ℕ) (t : ℚ) :
    (generateThumbnail false runExtract t = .error "Video file not found") ∧
      ((generateThumbnail true runExtract t = .ok (runExtract (t + 1 / 10)).2 ∧
          (runExtract (t + 1 / 10)).1 = 0) ∨
        (generateThumbnail true runExtract t
            = .error "FFmpeg failed to generate thumbnail" ∧
          (runExtract (t + 1 / 10)).1 ≠ 0)) := by
  refine ⟨rfl, ?_⟩
  rw [generateThumbnail_true_eq]
  by_cases h : (runExtract (t + 1 / 10)).1 = 0
  · exact Or.inl ⟨by rw [if_neg (fun hc => hc h)], h⟩
  · exact Or.inr ⟨by rw [if_pos h], h⟩

theorem drainQueue_workerQueue {R : Type} (ps : List ProgEvent) :
    drainQueue (R := R) (workerQueue ps) = ps.map .progress := by
  induction ps with
  | nil => rfl
  | cons p rest ih =>
    have h : workerQueue (p :: rest) = some p :: workerQueue rest := by
      simp [workerQueue]
    rw [h]
    simpa [drainQueue] using ih

theorem countP_terminal_map_progress {R : Type} (ps : List ProgEvent) :
    (ps.map (StreamEvent.progress (R := R))).countP (·.isTerminal) = 0 := by
  induction ps with
  | nil => rfl
  | cons p rest ih => simp [List.countP_cons, StreamEvent.isTerminal, ih]

theorem analyzeTerminal_isTerminal {R : Type} (c : Option (Except String R)) :
    (analyzeTerminal c).isTerminal = true := by
  rcases c with _ | e
  · rfl
  · cases e <;> rfl

theorem splitTerminal_isTerminal {R : Type} (c : Option (Except String R)) :
    (splitTerminal c).isTerminal = true := by
  rcases c with _ | e
  · rfl
  · cases e <;> rfl

/-- C3 (confirmed): under normal termination each event generator of
main.py delivers exactly one terminal record (complete or error), it is
the last record delivered, and an exception raised inside the worker
job (stored by the worker's `except` as the container's error) becomes
that terminal error record instead of propagating. -/
theorem stream_exactly_one_terminal {R : Type} (ps : List ProgEvent)
    (c : Option (Except String R)) (m : String) :
    ((analyzeStream ps c).countP (·.isTerminal) = 1 ∧
      (analyzeStream ps c).getLast? = some (analyzeTerminal c) ∧
      (analyzeTerminal c).isTerminal = true) ∧
    ((splitStream ps c).countP (·.isTerminal) = 1 ∧
      (splitStream ps c).getLast? = some (splitTerminal c) ∧
      (splitTerminal c).isTerminal = true) ∧
    analyzeTerminal (some (.error m)) = (.error m : StreamEvent R) ∧
    splitTerminal (some (.error m)) = (.error m : StreamEvent R) := by
  have hcount : ∀ t : StreamEvent R, t.isTerminal = true →
      ((ps.map (StreamEvent.progress (R := R)) ++ [t]).countP (·.isTerminal)) = 1 := by
    intro t ht
    rw [List.countP_append, countP_terminal_map_progress]
    simp [List.countP_cons, ht]
  refine ⟨⟨?_, ?_, analyzeTerminal_isTerminal c⟩,
    ⟨?_, ?_, splitTerminal_isTerminal c⟩, rfl, rfl⟩
  · rw [analyzeStream, drainQueue_workerQueue]
    exact hcount _ (analyzeTerminal_isTerminal c)
  · rw [analyzeStream, drainQueue_workerQueue]
    exact List.getLast?_concat _
  · rw [splitStream, drainQueue_workerQueue]
    exact hcount _ (splitTerminal_isTerminal c)
  · rw [splitStream, drainQueue_workerQueue]
    exact List.getLast?_concat _

theorem detectProgressAt_percent_le (e : ℕ → ℚ) (cuts : ℕ → ℕ)
    (total k : ℕ) : (detectProgressAt e cuts total k).percent ≤ 100 := by
  simp [detectProgressAt]

theorem detectProgressAt_percent_mono (e : ℕ → ℚ) (cuts : ℕ → ℕ)
    (total a b : ℕ) (hab : a ≤ b) :
    (detectProgressAt e cuts total a).percent
      ≤ (detectProgressAt e cuts total b).percent := by
  simp only [detectProgressAt]
  exact min_le_min le_rfl (Nat.div_le_div_right (Nat.mul_le_mul_right _ hab))

/-- C8 (confirmed): within one detection job the percent values of the
posted progress events are monotonically non-decreasing, and the last
progress event — delivered immediately before the stream's terminal
record — carries percent exactly 100. -/
theorem detect_percent_monotone_and_final (e : ℕ → ℚ) (cuts : ℕ → ℕ)
    (total frames : ℕ) (rc : Option (Except String (List Scene))) :
    List.Chain' (· ≤ ·) ((detectEvents e cuts total frames).map (·.percent)) ∧
    (detectFinalEvent cuts frames).percent = 100 ∧
    (analyzeStream (detectEvents e cuts total frames) rc).dropLast.getLast?
      = some (.progress (detectFinalEvent cuts frames)) := by
  refine ⟨?_, rfl, ?_⟩
  · rw [detectEvents, List.map_append]
    rw [List.chain'_append]
    refine ⟨?_, List.chain'_singleton _, ?_⟩
    · unfold detectProgressEvents
      by_cases ht : 0 < total
      · rw [if_pos ht, List.map_map, List.chain'_map]
        refine List.Pairwise.chain' ?_
        refine (List.pairwise_lt_range _).imp ?_
        intro a b hab
        exact detectProgressAt_percent_mono e cuts total _ _ (by omega)
      · rw [if_neg ht]
        simp
    · intro x hx y hy
      simp only [detectFinalEvent, List.map_cons, List.map_nil, List.head?_cons,
        Option.mem_def, Option.some.injEq] at hy
      have hx2 := List.mem_of_mem_getLast? hx
      rw [← hy]
      unfold detectProgressEvents at hx2
      by_cases ht : 0 < total
      · rw [if_pos ht, List.map_map] at hx2
        obtain ⟨k, _, hk⟩ := List.mem_map.mp hx2
        rw [← hk]
        exact detectProgressAt_percent_le e cuts total _
      · rw [if_neg ht] at hx2
        simp at hx2
  · rw [analyzeStream, drainQueue_workerQueue, List.dropLast_concat,
      detectEvents, List.map_append, List.map_cons, List.map_nil,
      List.getLast?_concat]

theorem runGroups_trace (bs : ℕ) (gs : List JVal) :
    ∀ (scs : List Scene) (off : ℕ) (tr : List ℕ), tr = List.range' 1 off →
      (runGroups bs scs off tr gs).2.2
        = List.range' 1 (runGroups bs scs off tr gs).2.1 := by
  induction gs with
  | nil =>
    intro scs off tr h
    simpa [runGroups] using h
  | cons g rest ih =>
    intro scs off tr h
    have htr2 : tr ++ [off + 1] = List.range' 1 (off + 1) := by
      rw [h, List.range'_concat]
      simp [Nat.add_comm]
    cases hpi : pyIter g with
    | none => simpa [runGroups, hpi] using htr2
    | some xs =>
      rcases hae : assignElems bs (off + 1) scs xs with ⟨scs2, flag⟩
      cases flag
      · simpa [runGroups, hpi, hae] using htr2
      · simpa [runGroups, hpi, hae] using ih scs2 (off + 1) (tr ++ [off + 1]) htr2

theorem processBatch_trace (thumbOk : ℕ → Bool) (responses : ℕ → String)
    (st : List Scene × ℕ × List ℕ) (i : ℕ)
    (h : st.2.2 = List.range' 1 st.2.1) :
    (processBatch thumbOk responses st i).2.2
      = List.range' 1 (processBatch thumbOk responses st i).2.1 := by
  unfold processBatch
  dsimp only
  split
  · exact h
  · split
    · exact h
    · split
      · exact h
      · exact runGroups_trace _ _ st.1 st.2.1 st.2.2 h

theorem foldl_processBatch_trace (thumbOk : ℕ → Bool) (responses : ℕ → String)
    (l : List ℕ) :
    ∀ st : List Scene × ℕ × List ℕ, st.2.2 = List.range' 1 st.2.1 →
      (l.foldl (processBatch thumbOk responses) st).2.2
        = List.range' 1 (l.foldl (processBatch thumbOk responses) st).2.1 := by
  induction l with
  | nil => intro st h; exact h
  | cons i rest ih =>
    intro st h
    exact ih _ (processBatch_trace thumbOk responses st i h)

/-- C9 (confirmed): over one `group_scenes` run, the group ids
allocated for parsed sub-lists form exactly the range `1..off` of the
single shared `group_id_offset` counter, in allocation order — hence
globally unique, strictly ascending, never reused and never reset
between batches. -/
theorem group_ids_fresh_ascending (thumbOk : ℕ → Bool)
    (responses : ℕ → String) (scenes : List Scene) :
    (groupScenesRun thumbOk responses scenes).2.2
        = List.range' 1 (groupScenesRun thumbOk responses scenes).2.1 ∧
      ((groupScenesRun thumbOk responses scenes).2.2).Pairwise (· < ·) := by
  have h : (groupScenesRun thumbOk responses scenes).2.2
      = List.range' 1 (groupScenesRun thumbOk responses scenes).2.1 := by
    unfold groupScenesRun
    split
    · rfl
    · exact foldl_processBatch_trace thumbOk responses _ _ rfl
  refine ⟨h, ?_⟩
  rw [h]
  exact List.pairwise_lt_range' 1 _

/-- C2 counterexample: ten scenes form two batches (globals 0-8 and 9).
Batch 0's response `[[10]]` carries local index 10, outside batch 0's
valid range 1-9; the code's only guard `global_idx <
len(processed_scenes)` accepts global index 9, so the group id 1
allocated in batch 0 is written onto scene 9 — a scene of batch 1,
whose own response parsed nothing. -/
theorem group_cross_batch_write_cex :
    tenScenes.length = 10 ∧
    (tenScenes.getD 9 default).groupId = none ∧
    codeParseResponse (crossBatchResponses 1) = none ∧
    ((groupScenes (fun _ => true) crossBatchResponses tenScenes).getD 9
        default).groupId = some 1 := by
  refine ⟨by decide, by decide, rfl, by decide⟩

/-- C2 (corrected): the only guard on a parsed integer local index is
`global_idx < len(processed_scenes)` on the whole scene list, not the
batch range.  Non-integers are skipped; an integer with
`global_idx ≥ len` is ignored; an integer with `0 ≤ global_idx < len`
writes the group id at position `global_idx` even when that position
lies outside the current batch; a negative `global_idx ≥ -len` wraps
Python-style to position `len + global_idx`; and `global_idx < -len`
raises `IndexError`, which the batch-level `except` catches, ending
that batch's remaining assignments. -/
theorem assignLocal_global_index_guard (batchStart gid : ℕ)
    (scs : List Scene) (v : JVal) :
    (toPyInt v = none → assignLocal batchStart gid scs v = some scs) ∧
    (∀ ix : Int, toPyInt v = some ix →
      ((scs.length : Int) ≤ (batchStart : Int) + (ix - 1) →
        assignLocal batchStart gid scs v = some scs) ∧
      (0 ≤ (batchStart : Int) + (ix - 1) →
        (batchStart : Int) + (ix - 1) < (scs.length : Int) →
        assignLocal batchStart gid scs v
          = some (setGroupId scs ((batchStart : Int) + (ix - 1)).toNat gid)) ∧
      ((batchStart : Int) + (ix - 1) < 0 →
        -(scs.length : Int) ≤ (batchStart : Int) + (ix - 1) →
        assignLocal batchStart gid scs v
          = some (setGroupId scs
              (scs.length - (-((batchStart : Int) + (ix - 1))).toNat) gid)) ∧
      ((batchStart : Int) + (ix - 1) < -(scs.length : Int) →
        assignLocal batchStart gid scs v = none)) := by
  constructor
  · intro h
    simp [assignLocal, h]
  · intro ix h
    refine ⟨fun h1 => ?_, fun h1 h2 => ?_, fun h1 h2 => ?_, fun h1 => ?_⟩
    · simp only [assignLocal, h]
      rw [if_neg (not_lt.mpr h1)]
    · simp only [assignLocal, h, pySetGroup]
      rw [if_pos h2, if_pos h1]
    · have hlen : (batchStart : Int) + (ix - 1) < (scs.length : Int) := by omega
      simp only [assignLocal, h, pySetGroup]
      rw [if_pos hlen, if_neg (not_le.mpr h1), if_pos h2]
    · have hlen : (batchStart : Int) + (ix - 1) < (scs.length : Int) := by omega
      simp only [assignLocal, h, pySetGroup]
      rw [if_pos hlen, if_neg (by omega), if_neg (not_le.mpr h1)]

/-- C2 witness: local index 10 at batch start 0 over the ten scenes is
in-list (global 9 < 10) though out-of-batch, and writes the group id at
position 9. -/
theorem assignLocal_global_index_guard_witness :
    toPyInt (.jint 10) = some 10 ∧
    assignLocal 0 1 tenScenes (.jint 10) = some (setGroupId tenScenes 9 1) := by
  have h := ((assignLocal_global_index_guard 0 1 tenScenes (.jint 10)).2
    10 rfl).2.1 (by decide) (by decide)
  exact ⟨rfl, by simpa using h⟩

/-- C6 counterexample: on `"[a] [[1]]"` the spec's parse — the first
well-formed bracketed list substring, here `[[1]]` — succeeds, but the
code's greedy regex span runs from the first `[` to the last `]`
(`"[a] [[1]]"`), fails `json.loads`, and the one-scene batch is left
ungrouped. -/
theorem parse_first_wellformed_cex :
    codeParseResponse "[a] [[1]]" = none ∧
    specFirstListSubstring "[a] [[1]]" = some (.jarr [.jarr [.jint 1]]) ∧
    ((groupScenes (fun _ => true) (fun _ => "[a] [[1]]")
        [mkScene 0]).getD 0 default).groupId = none := by
  refine ⟨rfl, rfl, by decide⟩

/-- C6 (corrected): the response is parsed by decoding, as JSON, the
single substring from the first `[` to the last `]`; when there is no
such substring or it fails to decode, the batch performs no assignments
at all — its scenes keep their `group_id`, the counter and trace are
untouched, and no exception reaches the caller (the `json.loads` error
is caught by the batch's `except` before any scene was modified). -/
theorem batch_skipped_on_unparsable_response (thumbOk : ℕ → Bool)
    (responses : ℕ → String) (st : List Scene × ℕ × List ℕ) (i : ℕ)
    (h : codeParseResponse (responses i) = none) :
    processBatch thumbOk responses st i = st := by
  unfold processBatch
  dsimp only
  rw [h]
  split <;> rfl

/-- C6 witness: an unparsable response leaves the batch state
untouched. -/
theorem batch_skipped_on_unparsable_response_witness :
    codeParseResponse "x" = none ∧
    processBatch (fun _ => true) (fun _ => "x") (tenScenes, 0, []) 0
      = (tenScenes, 0, []) :=
  ⟨rfl, batch_skipped_on_unparsable_response (fun _ => true) (fun _ => "x")
    (tenScenes, 0, []) 0 rfl⟩

theorem scenesFromCuts_length (duration : ℚ) (cuts : List ℚ) :
    (scenesFromCuts duration cuts).length = cuts.length + 1 := by
  simp [scenesFromCuts]

theorem scenesFromCuts_getD (duration : ℚ) (cuts : List ℚ) (i : ℕ)
    (h : i < cuts.length + 1) :
    (scenesFromCuts duration cuts).getD i default =
      { start := (0 :: (cuts ++ [duration])).getD i 0
        stop := (0 :: (cuts ++ [duration])).getD (i + 1) 0
        sceneNumber := i + 1
        groupId := none } := by
  have hlen : i < (scenesFromCuts duration cuts).length := by
    rw [scenesFromCuts_length]; exact h
  rw [List.getD_eq_getElem _ _ hlen]
  simp only [scenesFromCuts, List.getElem_map, List.getElem_range]

theorem chain'_lt_getD (l : List ℚ) (h : List.Chain' (· < ·) l) (i : ℕ)
    (hi : i + 1 < l.length) : l.getD i 0 < l.getD (i + 1) 0 := by
  rw [List.getD_eq_getElem _ _ (by omega), List.getD_eq_getElem _ _ hi]
  exact List.chain'_iff_get.mp h i (by omega)

/-- C4 (confirmed, modelled from the spec for the cut-to-scene
conversion that lives in the external scenedetect library): when the
accumulated boundaries `0, cuts…, duration` are strictly increasing,
the assembled scene list is nonempty with `start < end` everywhere,
scene numbers `1, 2, …` in order, contiguous intervals
(`scene[i].end = scene[i+1].start`), first start `0` and last end
`duration` — so the scenes tile `[0, duration]` with no gaps. -/
theorem scene_list_invariants (duration : ℚ) (cuts : List ℚ)
    (hchain : List.Chain' (· < ·) (0 :: (cuts ++ [duration]))) :
    (scenesFromCuts duration cuts).length = cuts.length + 1 ∧
    (∀ i, i < cuts.length + 1 →
      ((scenesFromCuts duration cuts).getD i default).start
        < ((scenesFromCuts duration cuts).getD i default).stop ∧
      ((scenesFromCuts duration cuts).getD i default).sceneNumber = i + 1) ∧
    (∀ i, i + 1 < cuts.length + 1 →
      ((scenesFromCuts duration cuts).getD i default).stop
        = ((scenesFromCuts duration cuts).getD (i + 1) default).start) ∧
    ((scenesFromCuts duration cuts).getD 0 default).start = 0 ∧
    ((scenesFromCuts duration cuts).getD cuts.length default).stop = duration := by
  have hbs : (0 :: (cuts ++ [duration])).length = cuts.length + 2 := by simp
  refine ⟨scenesFromCuts_length duration cuts, ?_, ?_, ?_, ?_⟩
  · intro i hi
    rw [scenesFromCuts_getD duration cuts i hi]
    exact ⟨chain'_lt_getD _ hchain i (by omega), rfl⟩
  · intro i hi
    rw [scenesFromCuts_getD duration cuts i (by omega),
      scenesFromCuts_getD duration cuts (i + 1) (by omega)]
  · rw [scenesFromCuts_getD duration cuts 0 (by omega)]
    rfl
  · rw [scenesFromCuts_getD duration cuts cuts.length (by omega)]
    show (0 :: (cuts ++ [duration])).getD (cuts.length + 1) 0 = duration
    rw [List.getD_cons_succ, List.getD_append_right _ _ _ _ le_rfl]
    simp

/-- C4 witness: duration 40 with cuts at 10 and 25 — the spec's own
scenario — gives three scenes ending at 40. -/
theorem scene_list_invariants_witness :
    List.Chain' (· < ·) ((0 : ℚ) :: ([10, 25] ++ [40])) ∧
    (scenesFromCuts 40 [10, 25]).length = 3 ∧
    ((scenesFromCuts 40 [10, 25]).getD 2 default).stop = 40 := by
  have hchain : List.Chain' (· < ·) ((0 : ℚ) :: ([10, 25] ++ [40])) := by
    norm_num [List.chain'_cons]
  have h := scene_list_invariants 40 [10, 25] hchain
  exact ⟨hchain, h.1, h.2.2.2.2⟩

theorem range'_getD (n0 m k : ℕ) (hk : k < m) :
    (List.range' n0 m).getD k 0 = n0 + k := by
  rw [List.getD_eq_getElem _ _ (by simpa [List.length_range'] using hk)]
  exact List.getElem_range'_1 _ _

theorem hSetGroup_getD_ne (heap : List Scene) (addr gid a : ℕ) (hne : a ≠ addr) :
    (hSetGroup heap addr gid).getD a default = heap.getD a default := by
  unfold hSetGroup
  by_cases ha : a < heap.length
  · rw [List.getD_eq_getElem _ _ (by simpa using ha), List.getD_eq_getElem _ _ ha]
    exact List.getElem_set_ne (fun hc => hne hc.symm) _
  · rw [List.getD_eq_default _ _ (by simpa using not_lt.mp ha),
      List.getD_eq_default _ _ (not_lt.mp ha)]

theorem hAssignLocal_getD_pres (n0 m batchStart gid a : ℕ) (ha : a < n0)
    (heap heap2 : List Scene) (v : JVal)
    (hres : hAssignLocal (List.range' n0 m) batchStart gid heap v = some heap2) :
    heap2.getD a default = heap.getD a default := by
  unfold hAssignLocal at hres
  cases htv : toPyInt v with
  | none =>
    rw [htv] at hres
    cases hres
    rfl
  | some ix =>
    rw [htv] at hres
    dsimp only at hres
    rw [List.length_range'] at hres
    by_cases h1 : (batchStart : Int) + (ix - 1) < (m : Int)
    · rw [if_pos h1] at hres
      by_cases h2 : (0 : Int) ≤ (batchStart : Int) + (ix - 1)
      · rw [if_pos h2] at hres
        cases hres
        have hk : ((batchStart : Int) + (ix - 1)).toNat < m := by omega
        rw [range'_getD n0 m _ hk]
        exact hSetGroup_getD_ne heap _ gid a (by omega)
      · rw [if_neg h2] at hres
        by_cases h3 : -(m : Int) ≤ (batchStart : Int) + (ix - 1)
        · rw [if_pos h3] at hres
          cases hres
          have hk : m - (-((batchStart : Int) + (ix - 1))).toNat < m := by omega
          rw [range'_getD n0 m _ hk]
          exact hSetGroup_getD_ne heap _ gid a (by omega)
        · rw [if_neg h3] at hres
          cases hres
    · rw [if_neg h1] at hres
      cases hres
      rfl

theorem hAssignElems_getD_pres (n0 m batchStart gid a : ℕ) (ha : a < n0)
    (xs : List JVal) :
    ∀ heap : List Scene,
      (hAssignElems (List.range' n0 m) batchStart gid heap xs).1.getD a default
        = heap.getD a default := by
  induction xs with
  | nil => intro heap; rfl
  | cons v rest ih =>
    intro heap
    cases hres : hAssignLocal (List.range' n0 m) batchStart gid heap v with
    | none => simp [hAssignElems, hres]
    | some heap2 =>
      have h1 := hAssignLocal_getD_pres n0 m batchStart gid a ha heap heap2 v hres
      simp only [hAssignElems, hres]
      rw [ih heap2]
      exact h1

theorem hRunGroups_getD_pres (n0 m batchStart a : ℕ) (ha : a < n0)
    (gs : List JVal) :
    ∀ (heap : List Scene) (off : ℕ),
      (hRunGroups (List.range' n0 m) batchStart heap off gs).1.getD a default
        = heap.getD a default := by
  induction gs with
  | nil => intro heap off; rfl
  | cons g rest ih =>
    intro heap off
    cases hpi : pyIter g with
    | none => simp [hRunGroups, hpi]
    | some xs =>
      rcases hae : hAssignElems (List.range' n0 m) batchStart (off + 1) heap xs
        with ⟨heap2, flag⟩
      have h1 : heap2.getD a default = heap.getD a default := by
        have := hAssignElems_getD_pres n0 m batchStart (off + 1) a ha xs heap
        rwa [hae] at this
      cases flag
      · simpa [hRunGroups, hpi, hae] using h1
      · simp only [hRunGroups, hpi, hae]
        rw [ih heap2 (off + 1)]
        exact h1

theorem hProcessBatch_getD_pres (thumbOk : ℕ → Bool) (responses : ℕ → String)
    (n0 m a : ℕ) (ha : a < n0) (st : List Scene × ℕ) (i : ℕ) :
    (hProcessBatch thumbOk responses (List.range' n0 m) st i).1.getD a default
      = st.1.getD a default := by
  unfold hProcessBatch
  dsimp only
  split
  · rfl
  · split
    · rfl
    · split
      · rfl
      · exact hRunGroups_getD_pres n0 m _ a ha _ st.1 st.2

theorem foldl_hProcessBatch_getD_pres (thumbOk : ℕ → Bool)
    (responses : ℕ → String) (n0 m a : ℕ) (ha : a < n0) (l : List ℕ) :
    ∀ st : List Scene × ℕ,
      (l.foldl (hProcessBatch thumbOk responses (List.range' n0 m)) st).1.getD
          a default
        = st.1.getD a default := by
  induction l with
  | nil => intro st; rfl
  | cons i rest ih =>
    intro st
    rw [List.foldl_cons, ih _,
      hProcessBatch_getD_pres thumbOk responses n0 m a ha st i]

/-- C10 (confirmed): `group_scenes` works on per-scene copies — at heap
level, the call leaves every cell the caller passed in untouched and
returns a list made of fresh cells only (all at addresses past the old
heap end, hence disjoint from the caller's). -/
theorem group_scenes_frame (thumbOk : ℕ → Bool) (responses : ℕ → String)
    (heap0 : List Scene) (addrs : List ℕ)
    (ha : ∀ a ∈ addrs, a < heap0.length) :
    (∀ a ∈ addrs,
      (groupScenesHeap thumbOk responses heap0 addrs).1.getD a default
        = heap0.getD a default) ∧
    (∀ b ∈ (groupScenesHeap thumbOk responses heap0 addrs).2,
      heap0.length ≤ b) ∧
    (∀ b ∈ (groupScenesHeap thumbOk responses heap0 addrs).2, b ∉ addrs) := by
  by_cases hemp : addrs = []
  · subst hemp
    refine ⟨fun a hmem => absurd hmem (List.not_mem_nil a), ?_, ?_⟩ <;>
      · intro b hmem
        simp [groupScenesHeap] at hmem
  · have h2 : (groupScenesHeap thumbOk responses heap0 addrs).2
        = List.range' heap0.length addrs.length := by
      unfold groupScenesHeap
      rw [if_neg hemp]
    have hfresh : ∀ b ∈ (groupScenesHeap thumbOk responses heap0 addrs).2,
        heap0.length ≤ b := by
      intro b hb
      rw [h2] at hb
      exact (List.mem_range'_1.mp hb).1
    refine ⟨?_, hfresh, ?_⟩
    · intro a hmem
      have haless := ha a hmem
      have h1 : (groupScenesHeap thumbOk responses heap0 addrs).1
          = ((List.range ((addrs.length + 8) / 9)).foldl
              (hProcessBatch thumbOk responses
                (List.range' heap0.length addrs.length))
              (heap0 ++ addrs.map fun x => heap0.getD x default, 0)).1 := by
        unfold groupScenesHeap
        rw [if_neg hemp]
      rw [h1, foldl_hProcessBatch_getD_pres thumbOk responses heap0.length
        addrs.length a haless]
      exact List.getD_append _ _ _ _ haless
    · intro b hb hbmem
      exact absurd (ha b hbmem) (not_lt.mpr (hfresh b hb))

/-- C10 witness: one caller cell, response `[[1]]` — the returned cell
gets group id 1 while the caller's cell keeps none. -/
theorem group_scenes_frame_witness :
    (∀ a ∈ [0], a < ([mkScene 0] : List Scene).length) ∧
    (groupScenesHeap (fun _ => true) (fun _ => "[[1]]") [mkScene 0] [0]).1.getD 0
        default
      = ([mkScene 0] : List Scene).getD 0 default ∧
    ((groupScenesHeap (fun _ => true) (fun _ => "[[1]]") [mkScene 0]
        [0]).1.getD 1 default).groupId = some 1 := by
  have ha : ∀ a ∈ [0], a < ([mkScene 0] : List Scene).length := by decide
  refine ⟨ha, ?_, by decide⟩
  exact (group_scenes_frame (fun _ => true) (fun _ => "[[1]]")
    [mkScene 0] [0] ha).1 0 (by decide)

end Videotools
